import Mathlib

/-!
Verification of the configuration-resolution and result-normalization layer of
the quacc fork: the Gaussian recipes (src/quacc/recipes/gaussian/core.py), the
ORCA calculator wrapper (src/quacc/calculators/orca/orca.py), and the layered
settings merge they rely on.

Python dictionaries are embedded as association lists over string keys
(`Dict`), with first-match lookup and Python assignment/update semantics.
Components whose implementation lives outside src/ (run_and_summarize,
write_orca, read_orca, the settings merger) are modelled from the spec and
marked as such in their doc comments.
-/

set_option maxHeartbeats 1000000

abbrev Dict (α : Type) : Type := List (String × α)

/-- First-match lookup, Python `d.get(k)`. -/
def dfind {α : Type} : Dict α → String → Option α
  | [], _ => none
  | kv :: rest, k => if k = kv.1 then some kv.2 else dfind rest k

/-- Drop every binding of key `k`, Python `del d[k]` (extensionally). -/
def derase {α : Type} : Dict α → String → Dict α
  | [], _ => []
  | kv :: rest, k => if kv.1 = k then derase rest k else kv :: derase rest k

/-- Python item assignment `d[k] = v` (extensionally: `k` now maps to `v`,
all other keys unchanged). -/
def dinsert {α : Type} (d : Dict α) (k : String) (v : α) : Dict α :=
  (k, v) :: derase d k

/-- Entries of `a` whose key does not occur in `b`. -/
def dsub {α : Type} : Dict α → Dict α → Dict α
  | [], _ => []
  | kv :: rest, b => if (dfind b kv.1).isSome then dsub rest b else kv :: dsub rest b

/-- Python dict union `a | b` (extensionally): keys of `b` take precedence. -/
def dunion {α : Type} (a b : Dict α) : Dict α := b ++ dsub a b

/-- The key list of a dictionary. -/
def dkeys {α : Type} (d : Dict α) : List String := d.map Prod.fst

theorem dfind_derase {α : Type} (d : Dict α) (k k' : String) :
    dfind (derase d k) k' = if k' = k then none else dfind d k' := by
  induction d with
  | nil => by_cases h : k' = k <;> simp [derase, dfind, h]
  | cons kv rest ih =>
    by_cases h1 : kv.1 = k
    · simp only [derase, if_pos h1, ih]
      by_cases h2 : k' = k
      · simp [h2]
      · have h3 : ¬(k' = kv.1) := by rw [h1]; exact h2
        simp [h2, dfind, h3]
    · simp only [derase, if_neg h1]
      by_cases h2 : k' = kv.1
      · have h3 : ¬(k' = k) := by rw [h2]; exact h1
        simp [dfind, h2, h3]
        exact h1
      · simp [dfind, h2, ih]

theorem dfind_dinsert {α : Type} (d : Dict α) (k k' : String) (v : α) :
    dfind (dinsert d k v) k' = if k' = k then some v else dfind d k' := by
  by_cases h : k' = k <;> simp [dinsert, dfind, h, dfind_derase]

theorem dfind_append_some {α : Type} {x : Dict α} {k : String} {v : α}
    (y : Dict α) (h : dfind x k = some v) : dfind (x ++ y) k = some v := by
  induction x with
  | nil => simp [dfind] at h
  | cons kv rest ih =>
    by_cases h1 : k = kv.1
    · simp [dfind, h1] at h ⊢; exact h
    · simp [dfind, h1] at h ⊢; exact ih h

theorem dfind_append_none {α : Type} {x : Dict α} {k : String}
    (y : Dict α) (h : dfind x k = none) : dfind (x ++ y) k = dfind y k := by
  induction x with
  | nil => simp
  | cons kv rest ih =>
    by_cases h1 : k = kv.1
    · simp [dfind, h1] at h
    · simp [dfind, h1] at h ⊢; exact ih h

theorem dfind_dsub_none {α : Type} {b : Dict α} {k : String} (a : Dict α)
    (hb : dfind b k = none) : dfind (dsub a b) k = dfind a k := by
  induction a with
  | nil => simp [dsub]
  | cons kv rest ih =>
    by_cases h1 : k = kv.1
    · have h2 : dfind b kv.1 = none := by rw [← h1]; exact hb
      simp [dsub, h2, dfind, h1]
    · by_cases h2 : (dfind b kv.1).isSome
      · simp [dsub, h2, ih, dfind, h1]
      · simp [dsub, h2, dfind, h1, ih]

theorem dfind_dunion_some {α : Type} {b : Dict α} {k : String} {v : α}
    (a : Dict α) (h : dfind b k = some v) : dfind (dunion a b) k = some v :=
  dfind_append_some _ h

theorem dfind_dunion_none {α : Type} {b : Dict α} {k : String}
    (a : Dict α) (h : dfind b k = none) : dfind (dunion a b) k = dfind a k := by
  unfold dunion
  rw [dfind_append_none _ h, dfind_dsub_none _ h]

/-! ## Configuration values

A configuration layer maps setting names to values; `Value.remove` is the
removal sentinel (`quacc.Remove`) that callers may supply to delete a
pre-existing key (see the `calc_kwargs` doc of `static_job`). -/

inductive Value where
  | str : String → Value
  | int : Int → Value
  | boolean : Bool → Value
  | strList : List String → Value
  | strDict : List (String × String) → Value
  | ref : Nat → Value
  | pynone : Value
  | remove : Value
deriving DecidableEq, Repr

/-! ## SettingsMerger

Modelled from the spec: the merge of layered configurations
(`run_and_summarize` / the settings merger live in
`quacc.recipes.gaussian._base`, which is not under src/). Per the spec:
layers are applied left to right, later layers take precedence, scalar and
list values are replaced wholesale, and a key mapped to the removal sentinel
is deleted from the accumulated result and stays absent for the rest of the
merge call ("removal is terminal for that key within one merge call"). -/

/-- Boolean membership in a list of keys. -/
def memb (k : String) : List String → Bool
  | [] => false
  | a :: rest => if k = a then true else memb k rest

/-- Modelled from the spec: one entry of one layer is applied to the
accumulated state (resolved-so-far dictionary, keys already removed). -/
def mergeStep (st : Dict Value × List String) (kv : String × Value) :
    Dict Value × List String :=
  if memb kv.1 st.2 then st
  else if kv.2 = Value.remove then (derase st.1 kv.1, kv.1 :: st.2)
  else (dinsert st.1 kv.1 kv.2, st.2)

/-- Modelled from the spec: `merge(base, *layers)` — fold the layers in
order over the empty accumulator and return the resolved configuration. -/
def merge (layers : List (Dict Value)) : Dict Value :=
  (layers.foldl (fun st L => L.foldl mergeStep st) ([], [])).1

/-- Per-key view of `mergeStep`: how one entry changes the value resolved for
key `k` together with the "k has been removed" flag. Proof device only. -/
def stepK (k : String) (st : Option Value × Bool) (kv : String × Value) :
    Option Value × Bool :=
  if kv.1 = k then
    if st.2 then st
    else if kv.2 = Value.remove then (none, true)
    else (some kv.2, false)
  else st

/-- The view of a full merge state at key `k`. -/
def viewAt (k : String) (st : Dict Value × List String) : Option Value × Bool :=
  (dfind st.1 k, memb k st.2)

theorem viewAt_mergeStep (k : String) (st : Dict Value × List String)
    (kv : String × Value) :
    viewAt k (mergeStep st kv) = stepK k (viewAt k st) kv := by
  by_cases h1 : kv.1 = k
  · subst h1
    by_cases h2 : memb kv.1 st.2
    · simp [mergeStep, stepK, viewAt, h2]
    · by_cases h3 : kv.2 = Value.remove
      · simp [mergeStep, stepK, viewAt, h2, h3, dfind_derase, memb]
      · simp [mergeStep, stepK, viewAt, h2, h3, dfind_dinsert]
  · by_cases h2 : memb kv.1 st.2
    · simp [mergeStep, stepK, viewAt, h1, h2]
    · by_cases h3 : kv.2 = Value.remove
      · have h4 : ¬(k = kv.1) := fun h => h1 h.symm
        simp [mergeStep, stepK, viewAt, h1, h2, h3, dfind_derase, memb, h4]
      · have h4 : ¬(k = kv.1) := fun h => h1 h.symm
        simp [mergeStep, stepK, viewAt, h1, h2, h3, dfind_dinsert, h4]

theorem viewAt_foldl (k : String) (L : Dict Value) (st : Dict Value × List String) :
    viewAt k (L.foldl mergeStep st) = L.foldl (stepK k) (viewAt k st) := by
  induction L generalizing st with
  | nil => rfl
  | cons kv rest ih =>
    simp only [List.foldl_cons, ih, viewAt_mergeStep]

/-- Per-key unfolding of the whole merge. -/
def pview (k : String) (layers : List (Dict Value)) : Option Value × Bool :=
  layers.foldl (fun s L => L.foldl (stepK k) s) (none, false)

theorem merge_find (layers : List (Dict Value)) (k : String) :
    dfind (merge layers) k = (pview k layers).1 := by
  have h : ∀ st, viewAt k (layers.foldl (fun st L => L.foldl mergeStep st) st)
      = layers.foldl (fun s L => L.foldl (stepK k) s) (viewAt k st) := by
    intro st
    induction layers generalizing st with
    | nil => rfl
    | cons L rest ih =>
      simp only [List.foldl_cons, ih, viewAt_foldl]
  have h2 := h ([], [])
  unfold merge pview
  have h3 : viewAt k (([] : Dict Value), ([] : List String)) = (none, false) := rfl
  rw [h3] at h2
  calc dfind (List.foldl (fun st L => L.foldl mergeStep st) ([], []) layers).1 k
      = (viewAt k (List.foldl (fun st L => L.foldl mergeStep st) ([], []) layers)).1 := rfl
    _ = (List.foldl (fun s L => L.foldl (stepK k) s) (none, false) layers).1 := by rw [h2]

theorem pview_join (k : String) (layers : List (Dict Value)) :
    pview k layers = layers.flatten.foldl (stepK k) (none, false) := by
  unfold pview
  generalize (none, false) = st
  induction layers generalizing st with
  | nil => rfl
  | cons L rest ih =>
    simp only [List.foldl_cons, ih]
    rw [show (L :: rest).flatten = L ++ rest.flatten from rfl, List.foldl_append]

theorem stepK_inv (k : String) (st : Option Value × Bool) (kv : String × Value)
    (h : st.2 = true → st.1 = none) :
    (stepK k st kv).2 = true → (stepK k st kv).1 = none := by
  unfold stepK
  split_ifs <;> simp_all

theorem foldl_stepK_inv (k : String) (E : Dict Value) (st : Option Value × Bool)
    (h : st.2 = true → st.1 = none) :
    (E.foldl (stepK k) st).2 = true → (E.foldl (stepK k) st).1 = none := by
  induction E generalizing st with
  | nil => exact h
  | cons kv rest ih => exact ih _ (stepK_inv k st kv h)

theorem foldl_stepK_stuck (k : String) (E : Dict Value) :
    E.foldl (stepK k) (none, true) = (none, true) := by
  induction E with
  | nil => rfl
  | cons kv rest ih =>
    have h : stepK k (none, true) kv = (none, true) := by
      unfold stepK; split_ifs <;> simp_all
    rw [List.foldl_cons, h, ih]

theorem stepK_remove (k : String) (st : Option Value × Bool)
    (h : st.2 = true → st.1 = none) :
    stepK k st (k, Value.remove) = (none, true) := by
  obtain ⟨a, b⟩ := st
  unfold stepK
  by_cases h2 : b
  · have h3 : a = none := h (by simp [h2])
    simp [h2, h3]
  · simp [h2]

theorem stepK_no_remove (k : String) (st : Option Value × Bool) (kv : String × Value)
    (h : st.1 ≠ some Value.remove) :
    (stepK k st kv).1 ≠ some Value.remove := by
  unfold stepK
  split_ifs <;> simp_all

theorem foldl_stepK_no_remove (k : String) (E : Dict Value) (st : Option Value × Bool)
    (h : st.1 ≠ some Value.remove) :
    (E.foldl (stepK k) st).1 ≠ some Value.remove := by
  induction E generalizing st with
  | nil => exact h
  | cons kv rest ih => exact ih _ (stepK_no_remove k st kv h)

/-- Claim C2: in any merge call, a key mapped to the removal sentinel in some
layer is absent from the resolved configuration — even when a later layer
re-supplies that key with a concrete value — and the resolved configuration
contains no removal sentinels. -/
theorem merge_remove_terminal (layers : List (Dict Value)) (L : Dict Value)
    (k : String) (hL : L ∈ layers) (hk : (k, Value.remove) ∈ L) :
    dfind (merge layers) k = none ∧
      ∀ k', dfind (merge layers) k' ≠ some Value.remove := by
  constructor
  · rw [merge_find, pview_join]
    have hmem : (k, Value.remove) ∈ layers.flatten :=
      List.mem_flatten.mpr ⟨L, hL, hk⟩
    obtain ⟨s, t, hst⟩ := List.append_of_mem hmem
    rw [hst, List.foldl_append, List.foldl_cons]
    have hinv : (s.foldl (stepK k) ((none : Option Value), false)).2 = true →
        (s.foldl (stepK k) ((none : Option Value), false)).1 = none :=
      foldl_stepK_inv k s _ (by simp)
    rw [stepK_remove k _ hinv, foldl_stepK_stuck]
  · intro k'
    rw [merge_find, pview_join]
    exact foldl_stepK_no_remove k' _ _ (by simp)

theorem merge_remove_terminal_witness :
    dfind (merge [[("a", Value.int 1)],
                  [("a", Value.remove), ("b", Value.int 2)],
                  [("a", Value.int 3)]]) "a" = none :=
  (merge_remove_terminal _ [("a", Value.remove), ("b", Value.int 2)] "a"
    (by decide) (by decide)).1

theorem derase_sublist {α : Type} (d : Dict α) (k : String) :
    List.Sublist (derase d k) d := by
  induction d with
  | nil => simp [derase]
  | cons kv rest ih =>
    by_cases h : kv.1 = k
    · simp only [derase, if_pos h]; exact ih.cons _
    · simp only [derase, if_neg h]; exact ih.cons₂ _

theorem mem_derase {α : Type} {d : Dict α} {k : String} {p : String × α}
    (h : p ∈ derase d k) : p ∈ d := (derase_sublist d k).subset h

theorem key_ne_of_mem_derase {α : Type} {d : Dict α} {k : String} {p : String × α}
    (h : p ∈ derase d k) : p.1 ≠ k := by
  induction d with
  | nil => simp [derase] at h
  | cons kv rest ih =>
    by_cases h1 : kv.1 = k
    · rw [derase, if_pos h1] at h; exact ih h
    · rw [derase, if_neg h1] at h
      rcases List.mem_cons.mp h with h2 | h2
      · rw [h2]; exact h1
      · exact ih h2

theorem not_mem_dkeys_derase {α : Type} (d : Dict α) (k : String) :
    k ∉ dkeys (derase d k) := by
  intro h
  obtain ⟨p, hp, hpk⟩ := List.mem_map.mp h
  exact key_ne_of_mem_derase hp hpk

theorem dkeys_derase_nodup {α : Type} (d : Dict α) (k : String)
    (h : (dkeys d).Nodup) : (dkeys (derase d k)).Nodup :=
  List.Nodup.sublist ((derase_sublist d k).map Prod.fst) h

theorem mergeStep_nodup_sfree (st : Dict Value × List String) (kv : String × Value)
    (h1 : (dkeys st.1).Nodup) (h2 : ∀ p ∈ st.1, p.2 ≠ Value.remove) :
    (dkeys (mergeStep st kv).1).Nodup ∧
      ∀ p ∈ (mergeStep st kv).1, p.2 ≠ Value.remove := by
  unfold mergeStep
  split_ifs with ha hb
  · exact ⟨h1, h2⟩
  · exact ⟨dkeys_derase_nodup _ _ h1, fun p hp => h2 p (mem_derase hp)⟩
  · constructor
    · show (dkeys ((kv.1, kv.2) :: derase st.1 kv.1)).Nodup
      rw [show dkeys ((kv.1, kv.2) :: derase st.1 kv.1)
            = kv.1 :: dkeys (derase st.1 kv.1) from rfl]
      exact List.nodup_cons.mpr
        ⟨not_mem_dkeys_derase st.1 kv.1, dkeys_derase_nodup _ _ h1⟩
    · intro p hp
      rcases List.mem_cons.mp hp with h3 | h3
      · rw [h3]; exact hb
      · exact h2 p (mem_derase h3)

theorem merge_nodup_sfree (layers : List (Dict Value)) :
    (dkeys (merge layers)).Nodup ∧ ∀ p ∈ merge layers, p.2 ≠ Value.remove := by
  suffices h : ∀ st : Dict Value × List String, (dkeys st.1).Nodup →
      (∀ p ∈ st.1, p.2 ≠ Value.remove) →
      (dkeys (layers.foldl (fun st L => L.foldl mergeStep st) st).1).Nodup ∧
      ∀ p ∈ (layers.foldl (fun st L => L.foldl mergeStep st) st).1,
        p.2 ≠ Value.remove by
    exact h ([], []) (by simp [dkeys]) (by simp)
  have hlayer : ∀ (L : Dict Value) (st : Dict Value × List String),
      (dkeys st.1).Nodup → (∀ p ∈ st.1, p.2 ≠ Value.remove) →
      (dkeys (L.foldl mergeStep st).1).Nodup ∧
      ∀ p ∈ (L.foldl mergeStep st).1, p.2 ≠ Value.remove := by
    intro L
    induction L with
    | nil => intro st hn hs; exact ⟨hn, hs⟩
    | cons kv rest ih =>
      intro st hn hs
      have := mergeStep_nodup_sfree st kv hn hs
      exact ih _ this.1 this.2
  induction layers with
  | nil => intro st hn hs; exact ⟨hn, hs⟩
  | cons L rest ih =>
    intro st hn hs
    have := hlayer L st hn hs
    exact ih _ this.1 this.2

theorem foldl_stepK_flag_false (k : String) (E : Dict Value)
    (hs : ∀ p ∈ E, p.2 ≠ Value.remove) (v : Option Value) :
    (E.foldl (stepK k) (v, false)).2 = false := by
  induction E generalizing v with
  | nil => rfl
  | cons kv rest ih =>
    rw [List.foldl_cons]
    by_cases ha : kv.1 = k
    · have hb : ¬(kv.2 = Value.remove) := hs kv (List.mem_cons_self _ _)
      rw [show stepK k (v, false) kv = (some kv.2, false) by
        simp [stepK, ha, hb]]
      exact ih (fun p hp => hs p (List.mem_cons_of_mem _ hp)) _
    · rw [show stepK k (v, false) kv = (v, false) by simp [stepK, ha]]
      exact ih (fun p hp => hs p (List.mem_cons_of_mem _ hp)) _

theorem eq_pair_of_snd_false {x : Option Value × Bool} (h : x.2 = false) :
    x = (x.1, false) := by
  obtain ⟨a, b⟩ := x
  simp at h
  rw [h]

theorem foldl_stepK_no_key (k : String) (E : Dict Value)
    (h : ∀ p ∈ E, p.1 ≠ k) (st : Option Value × Bool) :
    E.foldl (stepK k) st = st := by
  induction E generalizing st with
  | nil => rfl
  | cons kv rest ih =>
    rw [List.foldl_cons,
      show stepK k st kv = st by simp [stepK, h kv (List.mem_cons_self _ _)]]
    exact ih (fun p hp => h p (List.mem_cons_of_mem _ hp)) st

theorem foldl_stepK_replay (k : String) (D : Dict Value)
    (hnd : (dkeys D).Nodup) (hsf : ∀ p ∈ D, p.2 ≠ Value.remove) :
    D.foldl (stepK k) (none, false) = (dfind D k, false) := by
  induction D with
  | nil => rfl
  | cons kv rest ih =>
    rw [List.foldl_cons]
    by_cases h : kv.1 = k
    · have hb : ¬(kv.2 = Value.remove) := hsf kv (List.mem_cons_self _ _)
      rw [show stepK k ((none : Option Value), false) kv = (some kv.2, false) by
        simp [stepK, h, hb]]
      have hnk : ∀ p ∈ rest, p.1 ≠ k := by
        intro p hp hpk
        have : kv.1 ∉ dkeys rest := (List.nodup_cons.mp hnd).1
        exact this (List.mem_map.mpr ⟨p, hp, by rw [hpk, h]⟩)
      rw [foldl_stepK_no_key k rest hnk]
      have hkk : k = kv.1 := h.symm
      simp [dfind, hkk]
    · rw [show stepK k ((none : Option Value), false) kv = (none, false) by
        simp [stepK, h]]
      have h2 : ¬(k = kv.1) := fun hh => h hh.symm
      rw [ih (List.nodup_cons.mp hnd).2
        (fun p hp => hsf p (List.mem_cons_of_mem _ hp))]
      simp [dfind, h2]

/-- Counterexample to claim C6 as stated: with `A = {}`, `B = {k: Remove}`,
`C = {k: 1}`, merging `[A, B, C]` leaves `k` absent (removal is terminal),
but `merge(A, B)` discharges the sentinel, so merging `[merge(A,B), C]`
resolves `k` to `1`. -/
theorem merge_assoc_counterexample :
    dfind (merge [[], [("k", Value.remove)], [("k", Value.int 1)]]) "k"
        = none ∧
      dfind (merge [merge [[], [("k", Value.remove)]], [("k", Value.int 1)]]) "k"
        = some (Value.int 1) := by
  constructor <;> rfl

/-- Claim C6 (amended): the layered merge is associative across layer
boundaries provided the earlier layers `A` and `B` contain no removal
sentinels; in general it fails, because `merge(A, B)` discharges removal
markers, so a key removed in `B` is reintroduced by `C` in
`[merge(A,B), C]` but stays absent in `[A, B, C]`. -/
theorem merge_assoc_no_removals (A B C : Dict Value)
    (hA : ∀ p ∈ A, p.2 ≠ Value.remove) (hB : ∀ p ∈ B, p.2 ≠ Value.remove)
    (k : String) :
    dfind (merge [A, B, C]) k = dfind (merge [merge [A, B], C]) k := by
  rw [merge_find, merge_find]
  have h3 : pview k [A, B, C]
      = C.foldl (stepK k)
          (B.foldl (stepK k) (A.foldl (stepK k) (none, false))) := rfl
  have h2 : pview k [merge [A, B], C]
      = C.foldl (stepK k) ((merge [A, B]).foldl (stepK k) (none, false)) := rfl
  rw [h3, h2]
  have hDnod := (merge_nodup_sfree [A, B]).1
  have hDsf := (merge_nodup_sfree [A, B]).2
  rw [foldl_stepK_replay k (merge [A, B]) hDnod hDsf]
  have hfind : dfind (merge [A, B]) k
      = (B.foldl (stepK k) (A.foldl (stepK k) (none, false))).1 := by
    rw [merge_find]; rfl
  rw [hfind]
  have hflagA : (A.foldl (stepK k) ((none : Option Value), false)).2 = false :=
    foldl_stepK_flag_false k A hA none
  have hApair := eq_pair_of_snd_false hflagA
  have hflagB : (B.foldl (stepK k) (A.foldl (stepK k) (none, false))).2
      = false := by
    rw [hApair]
    exact foldl_stepK_flag_false k B hB _
  have hBpair := eq_pair_of_snd_false hflagB
  rw [← hBpair]

theorem merge_assoc_no_removals_witness :
    dfind (merge [[("a", Value.int 1)], [("b", Value.int 2)],
                  [("a", Value.remove)]]) "a"
      = dfind (merge [merge [[("a", Value.int 1)], [("b", Value.int 2)]],
                      [("a", Value.remove)]]) "a" :=
  merge_assoc_no_removals _ _ _ (by decide) (by decide) "a"

/-! ## JobRunner result envelopes

`run_and_summarize` lives in `quacc.recipes.gaussian._base`, which is not
under src/; its result-envelope contract is modelled from the spec. -/

inductive Status where
  | success : Status
  | failure : Status
deriving DecidableEq, Repr

/-- One sub-calculation's outcome: a status plus the result-envelope fields
(metadata such as the run name, computed properties, diagnostics). -/
structure RunResult where
  status : Status
  fields : Dict Value
deriving DecidableEq, Repr

/-- The arguments a recipe hands to `run_and_summarize` for one sub-run:
the calculator defaults, the caller's keyword overrides, and the
additional result fields (already merged with the recipe's default name,
as done at the call sites in core.py). -/
structure RunParams where
  calcDefaults : Dict Value
  calcSwaps : Dict Value
  additionalFields : Dict Value
deriving DecidableEq, Repr

/-- Modelled from the spec: `run_and_summarize` wraps the engine result in a
standard envelope, merging the caller-supplied additional fields (which take
precedence) into the result dictionary; failures of the engine are data in
the returned `RunResult`, never exceptions. -/
def run_and_summarize (raw : RunResult) (p : RunParams) : RunResult :=
  ⟨raw.status, dunion raw.fields p.additionalFields⟩

/-! ## Gaussian recipes (src/quacc/recipes/gaussian/core.py)

Each recipe is parameterized by the engine run `engine : RunParams →
RunResult` (the sub-calculation behind `run_and_summarize`, which executes
Gaussian and reports its outcome as data). Opaque pass-through arguments
(`atoms`, `copy_files`) are omitted: the recipes forward them unchanged. -/

/-- The `calc_defaults` dictionary of `static_job` (commented-out entries of
the source omitted, as in the source). -/
def staticCalcDefaults (xc basis : String) (charge mult : Int) : Dict Value :=
  [("chk", Value.str "Gaussian.chk"),
   ("xc", Value.str xc),
   ("basis", Value.str basis),
   ("charge", Value.int charge),
   ("mult", Value.int mult),
   ("dispersion", Value.str "empiricaldispersion=gd3"),
   ("scf", Value.strList ["maxcycle=250", "xqc"]),
   ("ioplist", Value.strList ["2/9=2000"])]

def staticParams (xc basis : String) (charge mult : Int)
    (kwargs af : Dict Value) : RunParams :=
  ⟨staticCalcDefaults xc basis charge mult, kwargs,
    dunion [("name", Value.str "Gaussian Static")] af⟩

/-- `static_job`: single-point calculation. `af` is `additional_fields or {}`
(`[]` both for `None` and for an empty mapping). -/
def static_job (engine : RunParams → RunResult) (xc basis : String)
    (charge mult : Int) (kwargs af : Dict Value) : RunResult :=
  run_and_summarize (engine (staticParams xc basis charge mult kwargs af))
    (staticParams xc basis charge mult kwargs af)

/-- The `calc_defaults` dictionary of `relax_job`; `"freq"` is appended when
the `freq` flag is set. -/
def relaxCalcDefaults (xc basis : String) (charge mult : Int) (freq : Bool) :
    Dict Value :=
  [("chk", Value.str "Gaussian.chk"),
   ("xc", Value.str xc),
   ("basis", Value.str basis),
   ("charge", Value.int charge),
   ("mult", Value.int mult),
   ("opt", Value.str ""),
   ("dispersion", Value.str "empiricaldispersion=gd3"),
   ("scf", Value.strList ["maxcycle=250", "xqc"]),
   ("ioplist", Value.strList ["2/9=2000"])]
  ++ (if freq then [("freq", Value.str "")] else [])

def relaxParams (xc basis : String) (charge mult : Int) (freq : Bool)
    (kwargs af : Dict Value) : RunParams :=
  ⟨relaxCalcDefaults xc basis charge mult freq, kwargs,
    dunion [("name", Value.str "Gaussian Relax")] af⟩

/-- `relax_job`: geometry optimization. -/
def relax_job (engine : RunParams → RunResult) (xc basis : String)
    (charge mult : Int) (freq : Bool) (kwargs af : Dict Value) : RunResult :=
  run_and_summarize (engine (relaxParams xc basis charge mult freq kwargs af))
    (relaxParams xc basis charge mult freq kwargs af)

/-- The `calc_defaults` dictionary of `TS_job`. -/
def tsCalcDefaults (xc basis : String) (charge mult : Int) : Dict Value :=
  [("chk", Value.str "Gaussian.chk"),
   ("xc", Value.str xc),
   ("basis", Value.str basis),
   ("charge", Value.int charge),
   ("mult", Value.int mult),
   ("opt", Value.str "calcfc,ts,noeigentest"),
   ("freq", Value.str ""),
   ("dispersion", Value.str "empiricaldispersion=gd3"),
   ("scf", Value.strList ["maxcycle=250", "xqc"]),
   ("ioplist", Value.strList ["2/9=2000"])]

def tsParams (xc basis : String) (charge mult : Int)
    (kwargs af : Dict Value) : RunParams :=
  ⟨tsCalcDefaults xc basis charge mult, kwargs,
    dunion [("name", Value.str "Gaussian TS")] af⟩

/-- `TS_job`: transition-state optimization with frequency calculation. -/
def TS_job (engine : RunParams → RunResult) (xc basis : String)
    (charge mult : Int) (kwargs af : Dict Value) : RunResult :=
  run_and_summarize (engine (tsParams xc basis charge mult kwargs af))
    (tsParams xc basis charge mult kwargs af)

/-- The shared base IRC directive of `IRC_job`:
`f"calcfc,maxpoints={irc_points},stepsize={stepsize},maxcycle=100"`. -/
def ircBaseDirective (ircPoints stepsize : Int) : String :=
  "calcfc,maxpoints=" ++ toString ircPoints ++ ",stepsize="
    ++ toString stepsize ++ ",maxcycle=100"

/-- The `calc_defaults` dictionary of `IRC_job`. -/
def ircCalcDefaults (xc basis : String) (charge mult ircPoints stepsize : Int) :
    Dict Value :=
  [("chk", Value.str "Gaussian.chk"),
   ("xc", Value.str xc),
   ("basis", Value.str basis),
   ("charge", Value.int charge),
   ("mult", Value.int mult),
   ("dispersion", Value.str "empiricaldispersion=gd3"),
   ("irc", Value.str (ircBaseDirective ircPoints stepsize)),
   ("iop", Value.strList ["7/33=1", "2/9=2000"]),
   ("scf", Value.strList ["maxcycle=250", "xqc"])]

/-- Python `d2 = d.copy(); d2[k] += suffix` on a string-valued key: the copy
gets the extended string under `k`; `d` itself is unchanged (strings are
immutable, the item assignment rebinds the key in the copy only). -/
def strAppendAt (d : Dict Value) (k : String) (suffix : String) : Dict Value :=
  match dfind d k with
  | some (Value.str s) => dinsert d k (Value.str (s ++ suffix))
  | _ => d

/-- `forward_calc` of `IRC_job`. -/
def ircForwardCalc (xc basis : String) (charge mult ircPoints stepsize : Int) :
    Dict Value :=
  strAppendAt (ircCalcDefaults xc basis charge mult ircPoints stepsize)
    "irc" ",forward"

/-- `backward_calc` of `IRC_job`, derived from the same `calc_defaults`. -/
def ircBackwardCalc (xc basis : String) (charge mult ircPoints stepsize : Int) :
    Dict Value :=
  strAppendAt (ircCalcDefaults xc basis charge mult ircPoints stepsize)
    "irc" ",reverse"

def ircForwardParams (xc basis : String) (charge mult ircPoints stepsize : Int)
    (kwargs af : Dict Value) : RunParams :=
  ⟨ircForwardCalc xc basis charge mult ircPoints stepsize, kwargs,
    dunion [("name", Value.str "Gaussian Forward IRC")] af⟩

def ircBackwardParams (xc basis : String) (charge mult ircPoints stepsize : Int)
    (kwargs af : Dict Value) : RunParams :=
  ⟨ircBackwardCalc xc basis charge mult ircPoints stepsize, kwargs,
    dunion [("name", Value.str "Gaussian Backward IRC")] af⟩

/-- A value of the composite `RunSchema` dictionary returned by `IRC_job`:
either a labeled sub-result or the workflow-level name string. -/
inductive SchemaVal where
  | sub : RunResult → SchemaVal
  | str : String → SchemaVal
deriving DecidableEq, Repr

/-- `IRC_job`: runs the forward IRC, then the backward IRC (both derived
from the shared `calc_defaults`), and combines both sub-results with the
workflow-level name into one composite dictionary. -/
def IRC_job (engine : RunParams → RunResult) (xc basis : String)
    (charge mult ircPoints stepsize : Int) (kwargs af : Dict Value) :
    Dict SchemaVal :=
  let fwd := ircForwardParams xc basis charge mult ircPoints stepsize kwargs af
  let bwd := ircBackwardParams xc basis charge mult ircPoints stepsize kwargs af
  [("forward_irc", SchemaVal.sub (run_and_summarize (engine fwd) fwd)),
   ("backward_irc", SchemaVal.sub (run_and_summarize (engine bwd) bwd)),
   ("name", SchemaVal.str "Gaussian IRC (Forward and Backward)")]

/-- An engine stub whose every sub-run reports the given status. -/
def constEngine (st : Status) : RunParams → RunResult :=
  fun _ => ⟨st, []⟩

/-- Claim C1: for the IRC workflow with irc_points=20 and stepsize=10, the
returned composite has exactly the keys forward_irc, backward_irc and name;
each sub-result entry is the summarized run of the corresponding sub-run
parameters, and the irc directive handed to each sub-run is the shared base
directive "calcfc,maxpoints=20,stepsize=10,maxcycle=100" with ",forward"
appended for the forward sub-run and ",reverse" for the backward one. -/
theorem IRC_job_composite_shape (engine : RunParams → RunResult)
    (xc basis : String) (charge mult : Int) (kwargs af : Dict Value) :
    dkeys (IRC_job engine xc basis charge mult 20 10 kwargs af)
        = ["forward_irc", "backward_irc", "name"] ∧
      dfind (IRC_job engine xc basis charge mult 20 10 kwargs af) "forward_irc"
        = some (SchemaVal.sub (run_and_summarize
            (engine (ircForwardParams xc basis charge mult 20 10 kwargs af))
            (ircForwardParams xc basis charge mult 20 10 kwargs af))) ∧
      dfind (IRC_job engine xc basis charge mult 20 10 kwargs af) "backward_irc"
        = some (SchemaVal.sub (run_and_summarize
            (engine (ircBackwardParams xc basis charge mult 20 10 kwargs af))
            (ircBackwardParams xc basis charge mult 20 10 kwargs af))) ∧
      dfind (IRC_job engine xc basis charge mult 20 10 kwargs af) "name"
        = some (SchemaVal.str "Gaussian IRC (Forward and Backward)") ∧
      ircBaseDirective 20 10 = "calcfc,maxpoints=20,stepsize=10,maxcycle=100" ∧
      dfind (ircForwardParams xc basis charge mult 20 10 kwargs af).calcDefaults
          "irc"
        = some (Value.str
            ("calcfc,maxpoints=20,stepsize=10,maxcycle=100" ++ ",forward")) ∧
      dfind (ircBackwardParams xc basis charge mult 20 10 kwargs af).calcDefaults
          "irc"
        = some (Value.str
            ("calcfc,maxpoints=20,stepsize=10,maxcycle=100" ++ ",reverse")) :=
  ⟨rfl, rfl, rfl, rfl, rfl, rfl, rfl⟩

/-- Claim C3: IRC_job always attempts and reports both sub-runs. If the
forward sub-run fails, the composite still contains all entries, the forward
entry is marked failed, and the backward entry carries its own status — one
sub-run's failure never aborts the sibling sub-run. -/
theorem IRC_job_partial_failure (engine : RunParams → RunResult)
    (xc basis : String) (charge mult ircPoints stepsize : Int)
    (kwargs af : Dict Value)
    (h : (engine (ircForwardParams xc basis charge mult ircPoints stepsize
        kwargs af)).status = Status.failure) :
    dkeys (IRC_job engine xc basis charge mult ircPoints stepsize kwargs af)
        = ["forward_irc", "backward_irc", "name"] ∧
      dfind (IRC_job engine xc basis charge mult ircPoints stepsize kwargs af)
          "forward_irc"
        = some (SchemaVal.sub (run_and_summarize
            (engine (ircForwardParams xc basis charge mult ircPoints stepsize
              kwargs af))
            (ircForwardParams xc basis charge mult ircPoints stepsize
              kwargs af))) ∧
      (run_and_summarize
          (engine (ircForwardParams xc basis charge mult ircPoints stepsize
            kwargs af))
          (ircForwardParams xc basis charge mult ircPoints stepsize
            kwargs af)).status = Status.failure ∧
      dfind (IRC_job engine xc basis charge mult ircPoints stepsize kwargs af)
          "backward_irc"
        = some (SchemaVal.sub (run_and_summarize
            (engine (ircBackwardParams xc basis charge mult ircPoints stepsize
              kwargs af))
            (ircBackwardParams xc basis charge mult ircPoints stepsize
              kwargs af))) ∧
      (run_and_summarize
          (engine (ircBackwardParams xc basis charge mult ircPoints stepsize
            kwargs af))
          (ircBackwardParams xc basis charge mult ircPoints stepsize
            kwargs af)).status
        = (engine (ircBackwardParams xc basis charge mult ircPoints stepsize
            kwargs af)).status :=
  ⟨rfl, rfl, h, rfl, rfl⟩

theorem IRC_job_partial_failure_witness :
    dfind (IRC_job (constEngine Status.failure) "wb97xd" "def2svp" 0 1 20 10
        [] []) "forward_irc"
      = some (SchemaVal.sub (run_and_summarize
          (constEngine Status.failure
            (ircForwardParams "wb97xd" "def2svp" 0 1 20 10 [] []))
          (ircForwardParams "wb97xd" "def2svp" 0 1 20 10 [] []))) ∧
    (run_and_summarize
        (constEngine Status.failure
          (ircForwardParams "wb97xd" "def2svp" 0 1 20 10 [] []))
        (ircForwardParams "wb97xd" "def2svp" 0 1 20 10 [] [])).status
      = Status.failure := by
  have h := IRC_job_partial_failure (constEngine Status.failure)
    "wb97xd" "def2svp" 0 1 20 10 [] [] rfl
  exact ⟨h.2.1, h.2.2.1⟩

/-- Claim C4: composing a sub-run directive does not mutate the shared base
configuration: the forward copy carries the base directive with ",forward"
appended, the backward copy — derived from the same unmutated calc_defaults —
carries the base directive with ",reverse" appended (so it does not carry the
forward suffix), and on every other key both copies agree with the base. -/
theorem IRC_directive_composition_pure (xc basis : String)
    (charge mult ircPoints stepsize : Int) :
    dfind (ircForwardCalc xc basis charge mult ircPoints stepsize) "irc"
        = some (Value.str (ircBaseDirective ircPoints stepsize ++ ",forward")) ∧
      dfind (ircBackwardCalc xc basis charge mult ircPoints stepsize) "irc"
        = some (Value.str (ircBaseDirective ircPoints stepsize ++ ",reverse")) ∧
      ∀ k, k ≠ "irc" →
        dfind (ircForwardCalc xc basis charge mult ircPoints stepsize) k
            = dfind (ircCalcDefaults xc basis charge mult ircPoints stepsize) k ∧
          dfind (ircBackwardCalc xc basis charge mult ircPoints stepsize) k
            = dfind (ircCalcDefaults xc basis charge mult ircPoints stepsize) k := by
  have hirc : dfind (ircCalcDefaults xc basis charge mult ircPoints stepsize)
      "irc" = some (Value.str (ircBaseDirective ircPoints stepsize)) := rfl
  have hf : ircForwardCalc xc basis charge mult ircPoints stepsize
      = dinsert (ircCalcDefaults xc basis charge mult ircPoints stepsize) "irc"
          (Value.str (ircBaseDirective ircPoints stepsize ++ ",forward")) := by
    unfold ircForwardCalc strAppendAt
    rw [hirc]
  have hb : ircBackwardCalc xc basis charge mult ircPoints stepsize
      = dinsert (ircCalcDefaults xc basis charge mult ircPoints stepsize) "irc"
          (Value.str (ircBaseDirective ircPoints stepsize ++ ",reverse")) := by
    unfold ircBackwardCalc strAppendAt
    rw [hirc]
  refine ⟨?_, ?_, ?_⟩
  · rw [hf, dfind_dinsert]; simp
  · rw [hb, dfind_dinsert]; simp
  · intro k hk
    constructor
    · rw [hf, dfind_dinsert, if_neg hk]
    · rw [hb, dfind_dinsert, if_neg hk]

theorem IRC_directive_composition_pure_witness :
    dfind (ircForwardCalc "wb97xd" "def2svp" 0 1 20 10) "irc"
        = some (Value.str (ircBaseDirective 20 10 ++ ",forward")) ∧
      dfind (ircForwardCalc "wb97xd" "def2svp" 0 1 20 10) "scf"
        = dfind (ircCalcDefaults "wb97xd" "def2svp" 0 1 20 10) "scf" := by
  have h := IRC_directive_composition_pure "wb97xd" "def2svp" 0 1 20 10
  exact ⟨h.1, (h.2.2 "scf" (by decide)).1⟩

theorem dfind_envelope_name (raw : Dict Value) (deflt : Value) (af : Dict Value) :
    dfind (dunion raw (dunion [("name", deflt)] af)) "name"
      = some ((dfind af "name").getD deflt) := by
  cases h : dfind af "name" with
  | none =>
    have h1 : dfind (dunion [("name", deflt)] af) "name" = some deflt := by
      rw [dfind_dunion_none _ h]; rfl
    rw [dfind_dunion_some _ h1]
    rfl
  | some v =>
    have h1 : dfind (dunion [("name", deflt)] af) "name" = some v :=
      dfind_dunion_some _ h
    rw [dfind_dunion_some _ h1]
    rfl

/-- Claim C9 (amended): in static_job, relax_job, TS_job and in each IRC
sub-run envelope, a caller-supplied "name" in additional_fields takes
precedence over the recipe's built-in default name, and the default name is
present when additional_fields is absent or empty; the workflow-level name of
the IRC composite, however, is fixed and is not overridden. -/
theorem additional_fields_name_precedence (engine : RunParams → RunResult)
    (xc basis : String) (charge mult ircPoints stepsize : Int) (freq : Bool)
    (kwargs af : Dict Value) :
    dfind (static_job engine xc basis charge mult kwargs af).fields "name"
        = some ((dfind af "name").getD (Value.str "Gaussian Static")) ∧
      dfind (relax_job engine xc basis charge mult freq kwargs af).fields "name"
        = some ((dfind af "name").getD (Value.str "Gaussian Relax")) ∧
      dfind (TS_job engine xc basis charge mult kwargs af).fields "name"
        = some ((dfind af "name").getD (Value.str "Gaussian TS")) ∧
      dfind (run_and_summarize
          (engine (ircForwardParams xc basis charge mult ircPoints stepsize
            kwargs af))
          (ircForwardParams xc basis charge mult ircPoints stepsize
            kwargs af)).fields "name"
        = some ((dfind af "name").getD (Value.str "Gaussian Forward IRC")) ∧
      dfind (run_and_summarize
          (engine (ircBackwardParams xc basis charge mult ircPoints stepsize
            kwargs af))
          (ircBackwardParams xc basis charge mult ircPoints stepsize
            kwargs af)).fields "name"
        = some ((dfind af "name").getD (Value.str "Gaussian Backward IRC")) ∧
      dfind (IRC_job engine xc basis charge mult ircPoints stepsize kwargs af)
          "name"
        = some (SchemaVal.str "Gaussian IRC (Forward and Backward)") :=
  ⟨dfind_envelope_name _ _ _, dfind_envelope_name _ _ _,
   dfind_envelope_name _ _ _, dfind_envelope_name _ _ _,
   dfind_envelope_name _ _ _, rfl⟩

/-- Counterexample to claim C9 as stated: for the IRC recipe, an
additional_fields entry name="Custom" does not replace the composite
envelope's workflow-level name, which stays the built-in default. -/
theorem additional_fields_name_counterexample :
    dfind (IRC_job (constEngine Status.success) "wb97xd" "def2svp" 0 1 20 10
        [] [("name", Value.str "Custom")]) "name"
      = some (SchemaVal.str "Gaussian IRC (Forward and Backward)") ∧
    SchemaVal.str "Gaussian IRC (Forward and Backward)"
      ≠ SchemaVal.str "Custom" :=
  ⟨rfl, by decide⟩

/-! ## ORCA calculator (src/quacc/calculators/orca/orca.py)

Python attribute semantics: a lookup consults the instance dictionary first
and falls back to the class attributes. `Orca.__init__` assigns six instance
attributes and then calls the external `FileIOCalculator.__init__`, modelled
as an opaque dictionary `base` of attributes assigned by the base
constructor (later assignments take precedence). -/

/-- Text rendering of a value, helper for the modelled `write_orca`. -/
def renderValue : Value → String
  | Value.str s => s
  | Value.int n => toString n
  | Value.boolean b => toString b
  | Value.strList l => String.intercalate "," l
  | Value.strDict d => String.intercalate "," (d.map (fun p => p.1 ++ "=" ++ p.2))
  | Value.ref n => "ref:" ++ toString n
  | Value.pynone => "None"
  | Value.remove => "Remove"

/-- Modelled from the spec: `write_orca` (in `quacc.calculators.orca.io`,
not under src/) serializes the structure and settings it receives into the
engine's native input artifact; it is a pure function of exactly the
arguments the source passes it. -/
def write_orca (atoms label scratch command : Value) : String :=
  "# ORCA input\n" ++ renderValue label ++ "\n" ++ renderValue scratch ++ "\n"
    ++ renderValue command ++ "\n* xyz\n" ++ renderValue atoms ++ "\n*"

/-- The single class-level results cell: `results` is a `ClassVar` initialized
once at class scope, so there is one cell for the whole class. -/
def orcaResultsCell : Nat := 0

/-- The class attributes declared in the body of `class Orca`. -/
def orcaClassAttrs : Dict Value :=
  [("implemented_properties",
     Value.strList ["Geometry", "SCF_Energy", "DFT_Energy",
       "Solvation_Details", "Loewdin_Population_Analysis", "VdW_Correction",
       "SCF_Nuc_Gradient", "SCF_Dipole_Moment"]),
   ("results", Value.ref orcaResultsCell)]

/-- The instance dictionary after `Orca.__init__`: the six attributes the
constructor body assigns, updated by whatever the external
`FileIOCalculator.__init__` assigns afterwards (`base`). -/
def orcaInstance (base : Dict Value)
    (atoms input_settings charge spin_multiplicity solvation
      write_property_json : Value) : Dict Value :=
  dunion
    [("atoms", atoms), ("input_settings", input_settings),
     ("charge", charge), ("spin_multiplicity", spin_multiplicity),
     ("solvation", solvation), ("write_property_json", write_property_json)]
    base

/-- Python attribute lookup on an Orca instance: instance dictionary first,
then the class attributes. -/
def attrLookup (inst : Dict Value) (attr : String) : Option Value :=
  match dfind inst attr with
  | some v => some v
  | none => dfind orcaClassAttrs attr

/-- `Orca.write_input`: evaluates
`write_orca(atoms, self.label, self.scratch, self.command)`; each `self.X`
is an attribute lookup, and a missing attribute raises AttributeError. -/
def write_input (inst : Dict Value) (atoms : Value) : Except String String :=
  match attrLookup inst "label" with
  | none => Except.error "AttributeError: label"
  | some label =>
    match attrLookup inst "scratch" with
    | none => Except.error "AttributeError: scratch"
    | some scratch =>
      match attrLookup inst "command" with
      | none => Except.error "AttributeError: command"
      | some command => Except.ok (write_orca atoms label scratch command)

/-- Claim C5: writing the engine input is deterministic — the produced
artifact (or error) is a function of the structure and of the calculator
state the source hands to `write_orca` (the label, scratch and command
attributes), and of nothing else; two calls agreeing on those inputs return
byte-identical artifacts. -/
theorem write_input_deterministic (i1 i2 : Dict Value) (atoms1 atoms2 : Value)
    (hl : attrLookup i1 "label" = attrLookup i2 "label")
    (hs : attrLookup i1 "scratch" = attrLookup i2 "scratch")
    (hc : attrLookup i1 "command" = attrLookup i2 "command")
    (ha : atoms1 = atoms2) :
    write_input i1 atoms1 = write_input i2 atoms2 := by
  unfold write_input
  rw [hl, hs, hc, ha]

theorem write_input_deterministic_witness :
    write_input [("label", Value.str "orca"), ("scratch", Value.str "scr"),
        ("command", Value.str "run"), ("charge", Value.int 0)]
        (Value.strList ["H 0 0 0"])
      = write_input [("charge", Value.int 1), ("label", Value.str "orca"),
          ("scratch", Value.str "scr"), ("command", Value.str "run")]
          (Value.strList ["H 0 0 0"]) :=
  write_input_deterministic _ _ _ _ rfl rfl rfl rfl

/-- Claim C10: on every instance produced by `Orca.__init__`, calling
`write_input` reaches an error on the `self.scratch` access: neither the
constructor body nor the class attributes assign `scratch`, so whenever the
external base constructor did not provide it either (ASE's FileIOCalculator
does not), the attribute access cannot succeed. -/
theorem write_input_scratch_error (base : Dict Value)
    (atoms input_settings charge spin_multiplicity solvation
      write_property_json a2 lv : Value)
    (hb : dfind base "scratch" = none)
    (hlabel : attrLookup (orcaInstance base atoms input_settings charge
        spin_multiplicity solvation write_property_json) "label" = some lv) :
    attrLookup (orcaInstance base atoms input_settings charge spin_multiplicity
        solvation write_property_json) "scratch" = none ∧
      write_input (orcaInstance base atoms input_settings charge
          spin_multiplicity solvation write_property_json) a2
        = Except.error "AttributeError: scratch" := by
  have hinst : dfind (orcaInstance base atoms input_settings charge
      spin_multiplicity solvation write_property_json) "scratch" = none := by
    unfold orcaInstance
    rw [dfind_dunion_none _ hb]
    rfl
  have hattr : attrLookup (orcaInstance base atoms input_settings charge
      spin_multiplicity solvation write_property_json) "scratch" = none := by
    unfold attrLookup
    rw [hinst]
    rfl
  refine ⟨hattr, ?_⟩
  unfold write_input
  rw [hlabel, hattr]

theorem write_input_scratch_error_witness :
    write_input (orcaInstance
        [("label", Value.str "orca"), ("command", Value.str "run")]
        (Value.str "inp.xyz")
        (Value.strDict [("functional", "wb97x-d3bj"), ("basis", "def2-tzvp")])
        (Value.int 0) (Value.int 1) Value.pynone (Value.boolean true))
        (Value.str "atoms")
      = Except.error "AttributeError: scratch" :=
  (write_input_scratch_error
    [("label", Value.str "orca"), ("command", Value.str "run")]
    (Value.str "inp.xyz")
    (Value.strDict [("functional", "wb97x-d3bj"), ("basis", "def2-tzvp")])
    (Value.int 0) (Value.int 1) Value.pynone (Value.boolean true)
    (Value.str "atoms") (Value.str "orca") rfl rfl).2

/-- Claim C8: `results` is declared once at class scope and the constructor
never assigns an instance-level `results` attribute, so (whenever the
external base constructor does not shadow it) the `results` lookup of every
instance resolves to the one shared class-level cell — ambient state shared
across all instances rather than an explicit per-run return value. -/
theorem orca_results_shared_class_state (base1 base2 : Dict Value)
    (a1 s1 c1 m1 so1 w1 a2 s2 c2 m2 so2 w2 : Value)
    (hb1 : dfind base1 "results" = none)
    (hb2 : dfind base2 "results" = none) :
    dfind (orcaInstance base1 a1 s1 c1 m1 so1 w1) "results" = none ∧
      attrLookup (orcaInstance base1 a1 s1 c1 m1 so1 w1) "results"
        = some (Value.ref orcaResultsCell) ∧
      attrLookup (orcaInstance base2 a2 s2 c2 m2 so2 w2) "results"
        = attrLookup (orcaInstance base1 a1 s1 c1 m1 so1 w1) "results" := by
  have h1 : dfind (orcaInstance base1 a1 s1 c1 m1 so1 w1) "results" = none := by
    unfold orcaInstance
    rw [dfind_dunion_none _ hb1]
    rfl
  have h2 : dfind (orcaInstance base2 a2 s2 c2 m2 so2 w2) "results" = none := by
    unfold orcaInstance
    rw [dfind_dunion_none _ hb2]
    rfl
  have g1 : attrLookup (orcaInstance base1 a1 s1 c1 m1 so1 w1) "results"
      = some (Value.ref orcaResultsCell) := by
    unfold attrLookup
    rw [h1]
    rfl
  have g2 : attrLookup (orcaInstance base2 a2 s2 c2 m2 so2 w2) "results"
      = some (Value.ref orcaResultsCell) := by
    unfold attrLookup
    rw [h2]
    rfl
  exact ⟨h1, g1, g2.trans g1.symm⟩

theorem orca_results_shared_class_state_witness :
    attrLookup (orcaInstance [("label", Value.str "b")] (Value.str "x2")
        Value.pynone (Value.int (-1)) (Value.int 2) Value.pynone
        (Value.boolean false)) "results"
      = attrLookup (orcaInstance [("label", Value.str "a")] (Value.str "x1")
          Value.pynone (Value.int 0) (Value.int 1) Value.pynone
          (Value.boolean true)) "results" :=
  (orca_results_shared_class_state
    [("label", Value.str "a")] [("label", Value.str "b")]
    (Value.str "x1") Value.pynone (Value.int 0) (Value.int 1) Value.pynone
    (Value.boolean true)
    (Value.str "x2") Value.pynone (Value.int (-1)) (Value.int 2) Value.pynone
    (Value.boolean false) rfl rfl).2.2

inductive OrcaReadError where
  | missingArtifact : String → OrcaReadError
  | parseError : String → OrcaReadError
deriving DecidableEq, Repr

/-- Modelled from the spec: `read_orca` (in `quacc.calculators.orca.io`, not
under src/) raises MissingArtifactError when the expected output file does
not exist in the working directory, ParseError when expected output sections
are absent, and otherwise extracts the engine-specific property subset. The
working directory is a mapping from file name to file lines. -/
def read_orca (workdir : Dict (List String)) (label : String) :
    Except OrcaReadError (Dict Value) :=
  match dfind workdir (label ++ ".out") with
  | none => Except.error (OrcaReadError.missingArtifact (label ++ ".out"))
  | some lines =>
    match lines.find? (fun l => l.startsWith "FINAL SINGLE POINT ENERGY") with
    | some l => Except.ok [("SCF_Energy", Value.str l)]
    | none =>
      Except.error (OrcaReadError.parseError "expected output sections absent")

/-- `Orca.read_results`: returns `read_orca(self.label)`. -/
def read_results (label : String) (workdir : Dict (List String)) :
    Except OrcaReadError (Dict Value) :=
  read_orca workdir label

/-- Modelled from the spec: the JobRunner captures parse-time failures
(ParseError, MissingArtifactError) into a failed RunResult with the captured
diagnostic instead of propagating an exception. -/
def collect_run_result (label : String) (workdir : Dict (List String)) :
    RunResult :=
  match read_results label workdir with
  | Except.ok props => ⟨Status.success, props⟩
  | Except.error (OrcaReadError.missingArtifact p) =>
      ⟨Status.failure,
        [("diagnostic", Value.str ("MissingArtifactError: " ++ p))]⟩
  | Except.error (OrcaReadError.parseError m) =>
      ⟨Status.failure, [("diagnostic", Value.str ("ParseError: " ++ m))]⟩

/-- Claim C7: `read_results` against a working directory containing no output
artifact yields MissingArtifactError, and the JobRunner surfaces this as a
RunResult with failure status and the captured diagnostic, not as an
uncaught exception propagated to the caller. -/
theorem read_results_missing_artifact (label : String)
    (workdir : Dict (List String))
    (h : dfind workdir (label ++ ".out") = none) :
    read_results label workdir
        = Except.error (OrcaReadError.missingArtifact (label ++ ".out")) ∧
      (collect_run_result label workdir).status = Status.failure ∧
      dfind (collect_run_result label workdir).fields "diagnostic"
        = some (Value.str ("MissingArtifactError: " ++ (label ++ ".out"))) := by
  have h1 : read_results label workdir
      = Except.error (OrcaReadError.missingArtifact (label ++ ".out")) := by
    unfold read_results read_orca
    rw [h]
  refine ⟨h1, ?_, ?_⟩ <;> unfold collect_run_result <;> rw [h1] <;> rfl

theorem read_results_missing_artifact_witness :
    (collect_run_result "orca" [("orca.inp", ["! wb97x-d3bj def2-tzvp"])]).status
      = Status.failure :=
  (read_results_missing_artifact "orca"
    [("orca.inp", ["! wb97x-d3bj def2-tzvp"])] rfl).2.1
